import Mathlib

/-!
Shallow embedding of the tree-structured multi-select checkbox prompt
(`src/select.ts` of npm-update-interactive).

Modelling conventions:
* `Item` mirrors the source's `Separator | Choice<Value> | Group<Value>` union.
  Display-only fields (`name`, `short`, the separator text, the `help` action)
  are omitted: no embedded operation reads them.  The `disabled` field of the
  source is `boolean | string`; only its truthiness is ever consulted, so it is
  a `Bool` here.  Optional booleans (`checked?`, `expanded?`) are `Bool`
  (JS `Boolean(undefined) = false`).
* Groups hold an `ItemList` (a bespoke mutual list) so that every operation is
  structurally recursive and evaluates by `rfl`/`decide`.  The source's runtime
  functions (`allChecked`, `calcPrior`, ...) are written for arbitrarily nested
  groups, and the embedding follows them.
* A thrown JS exception (failed `assert`, indexing `undefined`) is modelled by
  `Option`: `none` = the keypress handler throws.
-/

mutual
inductive Item (V : Type) where
  | separator : Item V
  | choice (value : V) (checked : Bool) (disabled : Bool) : Item V
  | group (expanded : Bool) (disabled : Bool) (choices : ItemList V) : Item V

inductive ItemList (V : Type) where
  | nil : ItemList V
  | cons (hd : Item V) (tl : ItemList V) : ItemList V
end

deriving instance DecidableEq for Item
deriving instance DecidableEq for ItemList

variable {V : Type}

def ItemList.length : ItemList V → Nat
  | .nil => 0
  | .cons _ tl => tl.length + 1

def ItemList.get? : ItemList V → Nat → Option (Item V)
  | .nil, _ => none
  | .cons hd _, 0 => some hd
  | .cons _ tl, n + 1 => tl.get? n

/-- Replace the element at index `n` (identity when out of range). -/
def ItemList.set : ItemList V → Nat → Item V → ItemList V
  | .nil, _, _ => .nil
  | .cons _ tl, 0, x => .cons x tl
  | .cons hd tl, n + 1, x => .cons hd (tl.set n x)

/-- `Separator.isSeparator(item)` -/
def isSep : Item V → Bool
  | .separator => true
  | _ => false

/-- `isGroup(x)`: `(x as Group).choices !== undefined`. -/
def isGroupI : Item V → Bool
  | .group .. => true
  | _ => false

/-- `isSelectable(item) = !Separator.isSeparator(item) && !item.disabled` -/
def isSelectable : Item V → Bool
  | .separator => false
  | .choice _ _ d => !d
  | .group _ d _ => !d

/-- Truthiness of the raw `checked` field (`Boolean(item.checked)`);
groups and separators have no `checked` field, hence `false`. -/
def rawChecked : Item V → Bool
  | .choice _ c _ => c
  | _ => false

/-- `isChecked(item) = isSelectable(item) && Boolean(item.checked)` -/
def isChecked (it : Item V) : Bool :=
  isSelectable it && rawChecked it

mutual
/-- `anyChecked(item)`: groups ask `choices.some(anyChecked)`, otherwise `isChecked`. -/
def anyChecked : Item V → Bool
  | .group _ _ cs => anyCheckedL cs
  | it => isChecked it

def anyCheckedL : ItemList V → Bool
  | .nil => false
  | .cons hd tl => anyChecked hd || anyCheckedL tl
end

mutual
/-- `allChecked(item)`: groups ask `choices.every(allChecked)`, otherwise `isChecked`.
Note: a Separator or disabled Choice is never `isChecked`, so it makes
`allChecked` false wherever it occurs. -/
def allChecked : Item V → Bool
  | .group _ _ cs => allCheckedL cs
  | it => isChecked it

def allCheckedL : ItemList V → Bool
  | .nil => true
  | .cons hd tl => allChecked hd && allCheckedL tl
end

mutual
/-- `getChecked(item)`: separators contribute nothing, groups flat-map over their
children, and a Choice contributes itself iff its raw `checked` field is true
(the source performs no `disabled` test here). -/
def getChecked : Item V → List (Item V)
  | .separator => []
  | .group _ _ cs => getCheckedL cs
  | .choice v c d => if c then [.choice v c d] else []

def getCheckedL : ItemList V → List (Item V)
  | .nil => []
  | .cons hd tl => getChecked hd ++ getCheckedL tl
end

mutual
/-- `mapItemStatic(checked)`: recurse through groups (even disabled ones), set
`checked` on selectable items, leave everything else untouched. -/
def mapItemStatic (b : Bool) : Item V → Item V
  | .group e d cs => .group e d (mapItemStaticL b cs)
  | .choice v c d => if !d then .choice v b d else .choice v c d
  | .separator => .separator

def mapItemStaticL (b : Bool) : ItemList V → ItemList V
  | .nil => .nil
  | .cons hd tl => .cons (mapItemStatic b hd) (mapItemStaticL b tl)
end

mutual
/-- `toggle(item)`: separators unchanged, groups recurse, and every Choice —
disabled or not — gets `checked: !item.checked`. -/
def toggle : Item V → Item V
  | .separator => .separator
  | .group e d cs => .group e d (toggleL cs)
  | .choice v c d => .choice v (!c) d

def toggleL : ItemList V → ItemList V
  | .nil => .nil
  | .cons hd tl => .cons (toggle hd) (toggleL tl)
end

mutual
/-- `calcPrior(ptr)`: descend through expanded groups, taking the last child at
each level.  On an expanded group with no children the source evaluates
`calcPrior(choices[-1]) = calcPrior(undefined)`, whose `isGroup` test reads
`.choices` of `undefined` and throws: modelled as `none`. -/
def calcPrior : Item V → Option (List Nat)
  | .group true _ cs => calcPriorL cs
  | _ => some []

/-- Index-of-last plus recursive descent: `calcPriorL cs` is
`some ((cs.length - 1) :: calcPrior (last cs))` when `cs` is nonempty. -/
def calcPriorL : ItemList V → Option (List Nat)
  | .nil => none
  | .cons hd .nil =>
    match calcPrior hd with
    | some r => some (0 :: r)
    | none => none
  | .cons _ (.cons hd tl) =>
    match calcPriorL (.cons hd tl) with
    | some [] => some []
    | some (i :: r) => some ((i + 1) :: r)
    | none => none
end

/-- `items.findIndex(isSelectable)`, with JS's `-1` modelled as `none`. -/
def findFirstSelectable : ItemList V → Option Nat
  | .nil => none
  | .cons hd tl =>
    if isSelectable hd then some 0
    else (findFirstSelectable tl).map (· + 1)

/-- `items.findLastIndex(isSelectable)`, with JS's `-1` modelled as `none`. -/
def findLastSelectable : ItemList V → Option Nat
  | .nil => none
  | .cons hd tl =>
    match findLastSelectable tl with
    | some i => some (i + 1)
    | none => if isSelectable hd then some 0 else none

/-- The `bounds` memo: `first`/`last` root-level selectable index; the source
throws a `ValidationError` ("No selectable choices...", the spec's
`NoSelectableChoicesError`) when `first < 0`, modelled as `none`. -/
def computeBounds (items : ItemList V) : Option (Nat × Nat) :=
  match findFirstSelectable items, findLastSelectable items with
  | some f, some l => some (f, l)
  | _, _ => none

/-- The initial focus path: `useState([bounds.first])`; `none` when the bounds
computation already failed (prompt cannot start). -/
def initialActive (items : ItemList V) : Option (List Nat) :=
  (computeBounds items).map (fun b => [b.1])

/-- Tri-state aggregate of a group's children, as computed by the renderer:
`choices.every(allChecked)` → all, else `choices.some(anyChecked)` → partial,
else none. -/
inductive Agg where
  | all : Agg
  | part : Agg
  | nochk : Agg
deriving DecidableEq

def aggregateG (cs : ItemList V) : Agg :=
  if allCheckedL cs then .all
  else if anyCheckedL cs then .part
  else .nochk

/-- Resolving a focus path to the item it addresses (the `'?'` handler's
`reduce`, and the Up handler's `ptr` loop): index into the root, then into
`.choices` of each intermediate node.  Indexing out of range, or reading
`.choices` of a non-group, throws in JS: modelled as `none`. -/
def resolvePath : ItemList V → List Nat → Option (Item V)
  | _, [] => none
  | items, [i] => items.get? i
  | items, i :: rest =>
    match items.get? i with
    | some (.group _ _ cs) => resolvePath cs rest
    | _ => none

/-- The Focus Path invariant (spec §3): every proper prefix resolves to an
existing *expanded* Group, and the final element resolves to an existing,
non-Separator item. -/
def validPathB : ItemList V → List Nat → Bool
  | _, [] => false
  | items, [i] =>
    match items.get? i with
    | some it => !isSep it
    | none => false
  | items, i :: rest =>
    match items.get? i with
    | some (.group e _ cs) => e && validPathB cs rest
    | _ => false

def ItemList.isNil : ItemList V → Bool
  | .nil => true
  | .cons _ _ => false

mutual
/-- Every expanded Group (anywhere in the subtree) has at least one child. -/
def expNonempty : Item V → Bool
  | .group e _ cs => (!e || !cs.isNil) && expNonemptyL cs
  | _ => true

def expNonemptyL : ItemList V → Bool
  | .nil => true
  | .cons hd tl => expNonempty hd && expNonemptyL tl
end

/- ———————————————————— key handlers ———————————————————— -/

/-- Result of `validate`: `boolean | string` (a resolved promise). -/
inductive VRes where
  | bool (b : Bool) : VRes
  | str (s : String) : VRes

/-- Observable outcome of one Enter keypress: the arguments `validate` was
invoked with (in order), the error recorded by `setError`, whether
`setStatus("done")` ran, and the value handed to `done`. -/
structure EnterOutcome (V : Type) where
  validateCalls : List (List (Item V))
  errorSet : Option String
  statusDone : Bool
  doneValue : Option (List V)

/-- `value` fields of a list of Choice items, in order. -/
def choiceVals : List (Item V) → List V :=
  List.filterMap fun it =>
    match it with
    | .choice v _ _ => some v
    | _ => none

/-- The Enter branch of `useKeypress`: the selection is flattened and
`validate` is awaited *first*; only then is `required && !items.some(anyChecked)`
tested.  `getChecked` yields only Choice items, so
`selection.map(choice => choice.value)` is `choiceVals selection`.
`isValid || "You must select a valid value"` falls back exactly when the string
is empty (or the result is `false`). -/
def enterKey (required : Bool) (validate : List (Item V) → VRes)
    (items : ItemList V) : EnterOutcome V :=
  let selection := getCheckedL items
  let isValid := validate selection
  if required && !anyCheckedL items then
    ⟨[selection], some "At least one choice must be selected", false, none⟩
  else
    match isValid with
    | .bool true => ⟨[selection], none, true, some (choiceVals selection)⟩
    | .bool false =>
      ⟨[selection], some "You must select a valid value", false, none⟩
    | .str s =>
      ⟨[selection], some (if s = "" then "You must select a valid value" else s),
        false, none⟩

/-- The Down handler's `reduce` building `hierarchy`: the nodes along the
focus path.  `choices[activeIndex]` being `undefined` makes the subsequent
`isGroup` test throw: `none`.  A non-group node contributes `[]` as the next
level's choices, so a too-long path indexes into `[]` and also throws. -/
def hierarchy : ItemList V → List Nat → Option (List (Item V))
  | _, [] => some []
  | items, i :: rest =>
    match items.get? i with
    | none => none
    | some it =>
      let next := match it with
        | .group _ _ cs => cs
        | _ => ItemList.nil
      (hierarchy next rest).map (it :: ·)

/-- `isGroup(c) && c.expanded && c.choices.length` -/
def isExpandedNonemptyGroup : Item V → Bool
  | .group true _ (.cons _ _) => true
  | _ => false

/-- The Down branch of `useKeypress`.  Note: it consults neither `loop` nor
`bounds`; at depth 1 it unconditionally returns `[active[0] + 1]`. -/
def downKey (items : ItemList V) (active : List Nat) : Option (List Nat) :=
  match hierarchy items active with
  | none => none
  | some h =>
    match h.getLast? with
    | none => none
    | some cur =>
      if isExpandedNonemptyGroup cur then some (active ++ [0])
      else if active.length = 1 then some [active.headD 0 + 1]
      else
        match h[h.length - 2]? with
        | some (.group _ _ cs) =>
          let nextChildIndex := active.getLastD 0 + 1
          if nextChildIndex < cs.length then
            some (active.dropLast ++ [nextChildIndex])
          else
            some (active.dropLast.dropLast ++
              [(active.dropLast.getLastD 0) + 1])
        | _ => none

/-- The Up branch of `useKeypress`.  `boundsLast` is `bounds.last` from the
prompt's memo.  After decrementing the tail, the handler re-resolves `n`
through raw `.choices` indexing (the `ptr` loop) and appends `calcPrior`. -/
def upKey (boundsLast : Nat) (items : ItemList V) (active : List Nat) :
    Option (List Nat) :=
  if active.length = 1 && active.headD 0 = 0 then some [boundsLast]
  else if active.getLast? = some 0 then some active.dropLast
  else
    let n := active.dropLast ++ [active.getLastD 0 - 1]
    match resolvePath items n with
    | none => none
    | some ptr => (calcPrior ptr).map (n ++ ·)

mutual
/-- The Left branch's `mapItem(depth, isParentSelected)`: a group on the active
path (or below a collapsed ancestor on it) gets `expanded: false` and its
children mapped with `isParentSelected = true`; everything else is returned
unchanged. -/
def leftItem (active : List Nat) (depth : Nat) (isParentSelected : Bool)
    (index : Nat) : Item V → Item V
  | .group e d cs =>
    if isParentSelected || active[depth]? = some index then
      .group false d (leftList active (depth + 1) true 0 cs)
    else
      .group e d cs
  | it => it

def leftList (active : List Nat) (depth : Nat) (isParentSelected : Bool)
    (i : Nat) : ItemList V → ItemList V
  | .nil => .nil
  | .cons hd tl =>
    .cons (leftItem active depth isParentSelected i hd)
      (leftList active depth isParentSelected (i + 1) tl)
end

/-- The Left branch: `items.map(mapItem(0, false))`. -/
def leftKeyItems (active : List Nat) (items : ItemList V) : ItemList V :=
  leftList active 0 false 0 items

/-- Focus update of the Left branch: pop one level when depth > 1. -/
def leftKeyActive (active : List Nat) : List Nat :=
  if active.length > 1 then active.dropLast else active

/-- The final-iteration body of the Space branch: a Group gets every selectable
descendant's `checked` set to `!allChecked(group)`; a selectable Choice is
flipped; anything else is returned unchanged. -/
def spaceFinal : Item V → Item V
  | .group e d cs => .group e d (mapItemStaticL (!allCheckedL cs) cs)
  | .choice v c d => if !d then .choice v (!c) d else .choice v c d
  | .separator => .separator

mutual
/-- The Space branch's `mapItem(depth)` applied to one item carrying its map
index: off the active index the item is unchanged; at the final depth the
toggle applies; otherwise the source asserts `isGroup(item)` (modelled as
`none` on failure) and recurses into the children. -/
def spaceItem (active : List Nat) (depth : Nat) (index : Nat) :
    Item V → Option (Item V)
  | .group e d cs =>
    if active[depth]? = some index then
      if depth = active.length - 1 then some (spaceFinal (.group e d cs))
      else (spaceList active (depth + 1) 0 cs).map (.group e d ·)
    else some (.group e d cs)
  | it =>
    if active[depth]? = some index then
      if depth = active.length - 1 then some (spaceFinal it)
      else none
    else some it

def spaceList (active : List Nat) (depth : Nat) (i : Nat) :
    ItemList V → Option (ItemList V)
  | .nil => some .nil
  | .cons hd tl =>
    match spaceItem active depth i hd, spaceList active depth (i + 1) tl with
    | some hd2, some tl2 => some (.cons hd2 tl2)
    | _, _ => none
end

/-- The Space branch: `items.map(mapItem(0))`. -/
def spaceKey (items : ItemList V) (active : List Nat) : Option (ItemList V) :=
  spaceList active 0 0 items

/-- The `'a'` branch: `selectAll = !items.every(allChecked)`, then the inline
`check` function — which is exactly `mapItemStatic(selectAll)` — is mapped
over the tree. -/
def aKeyItems (items : ItemList V) : ItemList V :=
  mapItemStaticL (!allCheckedL items) items

/-- The `'i'` branch: `items.map(toggle)`. -/
def invertKey (items : ItemList V) : ItemList V :=
  toggleL items

/- ———————————————— helpers for stating properties ———————————————— -/

mutual
/-- Depth-first pre-order list of every Choice in the subtree (through groups,
expanded or not, disabled or not). -/
def allChoices : Item V → List (Item V)
  | .separator => []
  | .choice v ch d => [.choice v ch d]
  | .group _ _ cs => allChoicesL cs

def allChoicesL : ItemList V → List (Item V)
  | .nil => []
  | .cons hd tl => allChoices hd ++ allChoicesL tl
end

mutual
/-- Forget every `expanded` flag (set it to `false`), changing nothing else.
Two trees agree under `eraseExpanded` iff they differ at most in `expanded`
flags. -/
def eraseExpanded : Item V → Item V
  | .group _ d cs => .group false d (eraseExpandedL cs)
  | it => it

def eraseExpandedL : ItemList V → ItemList V
  | .nil => .nil
  | .cons hd tl => .cons (eraseExpanded hd) (eraseExpandedL tl)
end

mutual
/-- Forget every Choice's `checked` flag, changing nothing else. -/
def eraseChecked : Item V → Item V
  | .choice v _ d => .choice v false d
  | .group e d cs => .group e d (eraseCheckedL cs)
  | .separator => .separator

def eraseCheckedL : ItemList V → ItemList V
  | .nil => .nil
  | .cons hd tl => .cons (eraseChecked hd) (eraseCheckedL tl)
end

mutual
/-- Forget the `checked` flag of *selectable* Choices only; disabled Choices
keep theirs.  Two trees agree under this iff they differ at most in selectable
Choices' `checked` flags. -/
def eraseSelChecked : Item V → Item V
  | .choice v c d => .choice v (c && d) d
  | .group e d cs => .group e d (eraseSelCheckedL cs)
  | .separator => .separator

def eraseSelCheckedL : ItemList V → ItemList V
  | .nil => .nil
  | .cons hd tl => .cons (eraseSelChecked hd) (eraseSelCheckedL tl)
end

mutual
/-- Every selectable Choice in the subtree has `checked = b`. -/
def selChoicesAre (b : Bool) : Item V → Bool
  | .choice _ c d => d || (c == b)
  | .group _ _ cs => selChoicesAreL b cs
  | .separator => true

def selChoicesAreL (b : Bool) : ItemList V → Bool
  | .nil => true
  | .cons hd tl => selChoicesAre b hd && selChoicesAreL b tl
end

mutual
/-- The subtree contains no Separator and no disabled Choice (the two item
kinds that can never satisfy `isChecked`). -/
def noBlockers : Item V → Bool
  | .separator => false
  | .choice _ _ d => !d
  | .group _ _ cs => noBlockersL cs

def noBlockersL : ItemList V → Bool
  | .nil => true
  | .cons hd tl => noBlockers hd && noBlockersL tl
end

mutual
/-- The subtree contains at least one Choice or Separator (i.e. it is not a
skeleton of groups bottoming out in empty groups). -/
def hasLeaf : Item V → Bool
  | .separator => true
  | .choice .. => true
  | .group _ _ cs => hasLeafL cs

def hasLeafL : ItemList V → Bool
  | .nil => false
  | .cons hd tl => hasLeaf hd || hasLeafL tl
end

mutual
/-- No Choice in the subtree has a true raw `checked` field. -/
def noRawChecked : Item V → Bool
  | .choice _ c _ => !c
  | .group _ _ cs => noRawCheckedL cs
  | .separator => true

def noRawCheckedL : ItemList V → Bool
  | .nil => true
  | .cons hd tl => noRawChecked hd && noRawCheckedL tl
end

/-- Spec-side flatten, following the spec's words for comparison with the
source's `getChecked`: "depth-first, pre-order traversal yielding every
checked, non-disabled Choice".  (The source's `getChecked` omits the
disabled test.) -/
def flattenCheckedSpec (items : ItemList V) : List (Item V) :=
  (allChoicesL items).filter (fun it => rawChecked it && isSelectable it)

/- ———————————————————————— lemmas ———————————————————————— -/

mutual
theorem eraseExpanded_leftItem (active : List Nat) (depth : Nat) (p : Bool)
    (i : Nat) : ∀ it : Item V,
    eraseExpanded (leftItem active depth p i it) = eraseExpanded it
  | .separator => rfl
  | .choice _ _ _ => rfl
  | .group e d cs => by
    simp only [leftItem]
    split
    · simp only [eraseExpanded, eraseExpandedL_leftList]
    · rfl

theorem eraseExpandedL_leftList (active : List Nat) (depth : Nat) (p : Bool)
    (i : Nat) : ∀ l : ItemList V,
    eraseExpandedL (leftList active depth p i l) = eraseExpandedL l
  | .nil => rfl
  | .cons hd tl => by
    simp only [leftList, eraseExpandedL, eraseExpanded_leftItem,
      eraseExpandedL_leftList]
end

mutual
theorem eraseChecked_toggle : ∀ it : Item V,
    eraseChecked (toggle it) = eraseChecked it
  | .separator => rfl
  | .choice _ _ _ => rfl
  | .group _ _ cs => by
    simp only [toggle, eraseChecked, eraseCheckedL_toggleL cs]

theorem eraseCheckedL_toggleL : ∀ l : ItemList V,
    eraseCheckedL (toggleL l) = eraseCheckedL l
  | .nil => rfl
  | .cons hd tl => by
    simp only [toggleL, eraseCheckedL, eraseChecked_toggle hd,
      eraseCheckedL_toggleL tl]
end

mutual
theorem rawChecked_allChoices_toggle : ∀ it : Item V,
    (allChoices (toggle it)).map rawChecked
      = ((allChoices it).map rawChecked).map (fun b => !b)
  | .separator => rfl
  | .choice _ _ _ => rfl
  | .group _ _ cs => by
    simp only [toggle, allChoices, rawChecked_allChoicesL_toggleL cs]

theorem rawChecked_allChoicesL_toggleL : ∀ l : ItemList V,
    (allChoicesL (toggleL l)).map rawChecked
      = ((allChoicesL l).map rawChecked).map (fun b => !b)
  | .nil => rfl
  | .cons hd tl => by
    simp only [toggleL, allChoicesL, List.map_append,
      rawChecked_allChoices_toggle hd, rawChecked_allChoicesL_toggleL tl]
end

mutual
theorem getChecked_eq_filter : ∀ it : Item V,
    getChecked it = (allChoices it).filter rawChecked
  | .separator => rfl
  | .choice v c d => by
    simp only [getChecked, allChoices, List.filter, rawChecked]
    cases c <;> rfl
  | .group _ _ cs => by
    simp only [getChecked, allChoices, getCheckedL_eq_filter cs]

theorem getCheckedL_eq_filter : ∀ l : ItemList V,
    getCheckedL l = (allChoicesL l).filter rawChecked
  | .nil => rfl
  | .cons hd tl => by
    simp only [getCheckedL, allChoicesL, List.filter_append,
      getChecked_eq_filter hd, getCheckedL_eq_filter tl]
end

mutual
theorem selChoicesAre_mapItemStatic (b : Bool) : ∀ it : Item V,
    selChoicesAre b (mapItemStatic b it) = true
  | .separator => rfl
  | .choice v c d => by
    cases d <;> simp [mapItemStatic, selChoicesAre]
  | .group _ _ cs => by
    simp only [mapItemStatic, selChoicesAre, selChoicesAreL_mapItemStaticL b cs]

theorem selChoicesAreL_mapItemStaticL (b : Bool) : ∀ l : ItemList V,
    selChoicesAreL b (mapItemStaticL b l) = true
  | .nil => rfl
  | .cons hd tl => by
    simp only [mapItemStaticL, selChoicesAreL, selChoicesAre_mapItemStatic b hd,
      selChoicesAreL_mapItemStaticL b tl, Bool.and_self]
end

mutual
theorem eraseSelChecked_mapItemStatic (b : Bool) : ∀ it : Item V,
    eraseSelChecked (mapItemStatic b it) = eraseSelChecked it
  | .separator => rfl
  | .choice v c d => by
    cases d <;> simp [mapItemStatic, eraseSelChecked]
  | .group _ _ cs => by
    simp only [mapItemStatic, eraseSelChecked,
      eraseSelCheckedL_mapItemStaticL b cs]

theorem eraseSelCheckedL_mapItemStaticL (b : Bool) : ∀ l : ItemList V,
    eraseSelCheckedL (mapItemStaticL b l) = eraseSelCheckedL l
  | .nil => rfl
  | .cons hd tl => by
    simp only [mapItemStaticL, eraseSelCheckedL,
      eraseSelChecked_mapItemStatic b hd, eraseSelCheckedL_mapItemStaticL b tl]
end

mutual
theorem noBlockers_mapItemStatic (b : Bool) : ∀ it : Item V,
    noBlockers (mapItemStatic b it) = noBlockers it
  | .separator => rfl
  | .choice v c d => by cases d <;> simp [mapItemStatic, noBlockers]
  | .group _ _ cs => by
    simp only [mapItemStatic, noBlockers, noBlockersL_mapItemStaticL b cs]

theorem noBlockersL_mapItemStaticL (b : Bool) : ∀ l : ItemList V,
    noBlockersL (mapItemStaticL b l) = noBlockersL l
  | .nil => rfl
  | .cons hd tl => by
    simp only [mapItemStaticL, noBlockersL, noBlockers_mapItemStatic b hd,
      noBlockersL_mapItemStaticL b tl]
end

mutual
theorem allChecked_mapItemStatic_true : ∀ it : Item V, noBlockers it = true →
    allChecked (mapItemStatic true it) = true
  | .separator => by intro h; simp [noBlockers] at h
  | .choice v c d => by
    cases d <;> simp [mapItemStatic, noBlockers, allChecked, isChecked,
      isSelectable, rawChecked]
  | .group _ _ cs => by
    intro h
    simp only [noBlockers] at h
    simp only [mapItemStatic, allChecked, allCheckedL_mapItemStaticL_true cs h]

theorem allCheckedL_mapItemStaticL_true : ∀ l : ItemList V,
    noBlockersL l = true → allCheckedL (mapItemStaticL true l) = true
  | .nil => fun _ => rfl
  | .cons hd tl => by
    intro h
    simp only [noBlockersL, Bool.and_eq_true] at h
    simp only [mapItemStaticL, allCheckedL,
      allChecked_mapItemStatic_true hd h.1,
      allCheckedL_mapItemStaticL_true tl h.2, Bool.and_self]
end

mutual
theorem getChecked_mapItemStatic_false : ∀ it : Item V, noBlockers it = true →
    getChecked (mapItemStatic false it) = []
  | .separator => by intro h; simp [noBlockers] at h
  | .choice v c d => by
    cases d <;> simp [mapItemStatic, noBlockers, getChecked]
  | .group _ _ cs => by
    intro h
    simp only [noBlockers] at h
    simp only [mapItemStatic, getChecked, getCheckedL_mapItemStaticL_false cs h]

theorem getCheckedL_mapItemStaticL_false : ∀ l : ItemList V,
    noBlockersL l = true → getCheckedL (mapItemStaticL false l) = []
  | .nil => fun _ => rfl
  | .cons hd tl => by
    intro h
    simp only [noBlockersL, Bool.and_eq_true] at h
    simp only [mapItemStaticL, getCheckedL,
      getChecked_mapItemStatic_false hd h.1,
      getCheckedL_mapItemStaticL_false tl h.2, List.append_nil]
end

theorem choiceVals_append (a b : List (Item V)) :
    choiceVals (a ++ b) = choiceVals a ++ choiceVals b := by
  simp [choiceVals, List.filterMap_append]

mutual
theorem choiceVals_getChecked_mapItemStatic_true : ∀ it : Item V,
    noBlockers it = true →
    choiceVals (getChecked (mapItemStatic true it)) = choiceVals (allChoices it)
  | .separator => by intro h; simp [noBlockers] at h
  | .choice v c d => by
    cases d <;> simp [mapItemStatic, noBlockers, getChecked, allChoices,
      choiceVals, List.filterMap]
  | .group _ _ cs => by
    intro h
    simp only [noBlockers] at h
    simp only [mapItemStatic, getChecked, allChoices,
      choiceValsL_getCheckedL_mapItemStaticL_true cs h]

theorem choiceValsL_getCheckedL_mapItemStaticL_true : ∀ l : ItemList V,
    noBlockersL l = true →
    choiceVals (getCheckedL (mapItemStaticL true l))
      = choiceVals (allChoicesL l)
  | .nil => fun _ => rfl
  | .cons hd tl => by
    intro h
    simp only [noBlockersL, Bool.and_eq_true] at h
    simp only [mapItemStaticL, getCheckedL, allChoicesL, choiceVals_append,
      choiceVals_getChecked_mapItemStatic_true hd h.1,
      choiceValsL_getCheckedL_mapItemStaticL_true tl h.2]
end

mutual
theorem anyChecked_mapItemStatic_false : ∀ it : Item V,
    anyChecked (mapItemStatic false it) = false
  | .separator => rfl
  | .choice v c d => by
    cases d <;> simp [mapItemStatic, anyChecked, isChecked, isSelectable,
      rawChecked]
  | .group _ _ cs => by
    simp only [mapItemStatic, anyChecked, anyCheckedL_mapItemStaticL_false cs]

theorem anyCheckedL_mapItemStaticL_false : ∀ l : ItemList V,
    anyCheckedL (mapItemStaticL false l) = false
  | .nil => rfl
  | .cons hd tl => by
    simp only [mapItemStaticL, anyCheckedL,
      anyChecked_mapItemStatic_false hd, anyCheckedL_mapItemStaticL_false tl,
      Bool.or_self]
end

mutual
theorem allChecked_mapItemStatic_false : ∀ it : Item V, hasLeaf it = true →
    allChecked (mapItemStatic false it) = false
  | .separator => by
    intro _
    simp [mapItemStatic, allChecked, isChecked, isSelectable]
  | .choice v c d => by
    intro _
    cases d <;> simp [mapItemStatic, allChecked, isChecked, isSelectable,
      rawChecked]
  | .group _ _ cs => by
    intro h
    simp only [hasLeaf] at h
    simp only [mapItemStatic, allChecked,
      allCheckedL_mapItemStaticL_false cs h]

theorem allCheckedL_mapItemStaticL_false : ∀ l : ItemList V,
    hasLeafL l = true → allCheckedL (mapItemStaticL false l) = false
  | .nil => by intro h; simp [hasLeafL] at h
  | .cons hd tl => by
    intro h
    simp only [hasLeafL, Bool.or_eq_true] at h
    rcases h with h | h
    · simp only [mapItemStaticL, allCheckedL,
        allChecked_mapItemStatic_false hd h, Bool.false_and]
    · simp only [mapItemStaticL, allCheckedL,
        allCheckedL_mapItemStaticL_false tl h, Bool.and_false]
end

theorem aggregateG_all_iff (cs : ItemList V) :
    aggregateG cs = .all ↔ allCheckedL cs = true := by
  unfold aggregateG
  split
  · simp [*]
  · split <;> simp_all

theorem aggregateG_mapItemStaticL_false (cs : ItemList V)
    (h : hasLeafL cs = true) :
    aggregateG (mapItemStaticL false cs) = .nochk := by
  unfold aggregateG
  rw [allCheckedL_mapItemStaticL_false cs h, anyCheckedL_mapItemStaticL_false cs]
  rfl

theorem aggregateG_mapItemStaticL_true (cs : ItemList V)
    (h : noBlockersL cs = true) :
    aggregateG (mapItemStaticL true cs) = .all := by
  unfold aggregateG
  rw [allCheckedL_mapItemStaticL_true cs h]
  rfl

mutual
theorem anyChecked_eq_false_of_noRawChecked : ∀ it : Item V,
    noRawChecked it = true → anyChecked it = false
  | .separator => fun _ => rfl
  | .choice v c d => by
    cases c <;> simp [noRawChecked, anyChecked, isChecked, isSelectable,
      rawChecked]
  | .group _ _ cs => by
    intro h
    simp only [noRawChecked] at h
    simp only [anyChecked, anyCheckedL_eq_false_of_noRawCheckedL cs h]

theorem anyCheckedL_eq_false_of_noRawCheckedL : ∀ l : ItemList V,
    noRawCheckedL l = true → anyCheckedL l = false
  | .nil => fun _ => rfl
  | .cons hd tl => by
    intro h
    simp only [noRawCheckedL, Bool.and_eq_true] at h
    simp only [anyCheckedL, anyChecked_eq_false_of_noRawChecked hd h.1,
      anyCheckedL_eq_false_of_noRawCheckedL tl h.2, Bool.or_self]
end

mutual
theorem getChecked_eq_nil_of_noRawChecked : ∀ it : Item V,
    noRawChecked it = true → getChecked it = []
  | .separator => fun _ => rfl
  | .choice v c d => by cases c <;> simp [noRawChecked, getChecked]
  | .group _ _ cs => by
    intro h
    simp only [noRawChecked] at h
    simp only [getChecked, getCheckedL_eq_nil_of_noRawCheckedL cs h]

theorem getCheckedL_eq_nil_of_noRawCheckedL : ∀ l : ItemList V,
    noRawCheckedL l = true → getCheckedL l = []
  | .nil => fun _ => rfl
  | .cons hd tl => by
    intro h
    simp only [noRawCheckedL, Bool.and_eq_true] at h
    simp only [getCheckedL, getChecked_eq_nil_of_noRawChecked hd h.1,
      getCheckedL_eq_nil_of_noRawCheckedL tl h.2, List.append_nil]
end

theorem findFirstSelectable_eq_none_iff : ∀ l : ItemList V,
    findFirstSelectable l = none ↔
      ∀ j it, l.get? j = some it → isSelectable it = false
  | .nil => by
    simp [findFirstSelectable, ItemList.get?]
  | .cons hd tl => by
    simp only [findFirstSelectable]
    match hs : isSelectable hd with
    | true =>
      simp only [if_true]
      constructor
      · intro hc
        cases hc
      · intro hall
        have := hall 0 hd rfl
        rw [hs] at this
        cases this
    | false =>
      simp only [Bool.false_eq_true, if_false, Option.map_eq_none']
      rw [findFirstSelectable_eq_none_iff tl]
      constructor
      · intro hall j it hj
        match j, hj with
        | 0, hj => cases hj; exact hs
        | j + 1, hj => exact hall j it hj
      · intro hall j it hj
        exact hall (j + 1) it hj

theorem findLastSelectable_eq_none_iff : ∀ l : ItemList V,
    findLastSelectable l = none ↔
      ∀ j it, l.get? j = some it → isSelectable it = false
  | .nil => by
    simp [findLastSelectable, ItemList.get?]
  | .cons hd tl => by
    simp only [findLastSelectable]
    match htl : findLastSelectable tl with
    | some i =>
      simp only
      constructor
      · intro hc
        cases hc
      · intro hall
        have : ∀ j it, tl.get? j = some it → isSelectable it = false :=
          fun j it hj => hall (j + 1) it hj
        rw [← findLastSelectable_eq_none_iff tl] at this
        rw [this] at htl
        cases htl
    | none =>
      match hs : isSelectable hd with
      | true =>
        simp only [if_true]
        constructor
        · intro hc
          cases hc
        · intro hall
          have := hall 0 hd rfl
          rw [hs] at this
          cases this
      | false =>
        simp only [Bool.false_eq_true, if_false, true_iff]
        intro j it hj
        match j, hj with
        | 0, hj => cases hj; exact hs
        | j + 1, hj =>
          exact (findLastSelectable_eq_none_iff tl).mp htl j it hj

theorem findLastSelectable_eq_none_of_first (l : ItemList V)
    (h : findFirstSelectable l = none) : findLastSelectable l = none := by
  rw [findLastSelectable_eq_none_iff]
  exact (findFirstSelectable_eq_none_iff l).mp h

theorem findFirstSelectable_spec : ∀ (l : ItemList V) (f : Nat),
    findFirstSelectable l = some f →
    (∃ it, l.get? f = some it ∧ isSelectable it = true) ∧
    ∀ j it, l.get? j = some it → j < f → isSelectable it = false
  | .nil, f => by simp [findFirstSelectable]
  | .cons hd tl, f => by
    simp only [findFirstSelectable]
    match hs : isSelectable hd with
    | true =>
      simp only [if_true, Option.some.injEq]
      rintro rfl
      exact ⟨⟨hd, rfl, hs⟩, fun j it _ hj => absurd hj (Nat.not_lt_zero j)⟩
    | false =>
      simp only [Bool.false_eq_true, if_false, Option.map_eq_some']
      rintro ⟨f0, hf0, rfl⟩
      obtain ⟨⟨it0, hget, hsel⟩, hmin⟩ := findFirstSelectable_spec tl f0 hf0
      refine ⟨⟨it0, hget, hsel⟩, ?_⟩
      intro j it hj hlt
      match j, hj with
      | 0, hj => cases hj; exact hs
      | j + 1, hj => exact hmin j it hj (by omega)

theorem findLastSelectable_spec : ∀ (l : ItemList V) (f : Nat),
    findLastSelectable l = some f →
    (∃ it, l.get? f = some it ∧ isSelectable it = true) ∧
    ∀ j it, l.get? j = some it → f < j → isSelectable it = false
  | .nil, f => by simp [findLastSelectable]
  | .cons hd tl, f => by
    simp only [findLastSelectable]
    match htl : findLastSelectable tl with
    | some i =>
      simp only [Option.some.injEq]
      rintro rfl
      obtain ⟨⟨it0, hget, hsel⟩, hmax⟩ := findLastSelectable_spec tl i htl
      refine ⟨⟨it0, hget, hsel⟩, ?_⟩
      intro j it hj hlt
      match j, hj with
      | j + 1, hj => exact hmax j it hj (by omega)
    | none =>
      match hs : isSelectable hd with
      | true =>
        simp only [if_true, Option.some.injEq]
        rintro rfl
        refine ⟨⟨hd, rfl, hs⟩, ?_⟩
        intro j it hj hlt
        match j, hj with
        | j + 1, hj =>
          exact (findLastSelectable_eq_none_iff tl).mp htl j it hj
      | false =>
        simp [Bool.false_eq_true]

theorem ItemList.get?_isSome_iff : ∀ (l : ItemList V) (i : Nat),
    (l.get? i).isSome = true ↔ i < l.length
  | .nil, i => by simp [ItemList.get?, ItemList.length]
  | .cons hd tl, 0 => by simp [ItemList.get?, ItemList.length]
  | .cons hd tl, i + 1 => by
    simp only [ItemList.get?, ItemList.length]
    rw [ItemList.get?_isSome_iff tl i]
    omega

theorem expNonempty_of_get? : ∀ (l : ItemList V) (j : Nat) (it : Item V),
    l.get? j = some it → expNonemptyL l = true → expNonempty it = true
  | .nil, j, it => by intro hj _; simp [ItemList.get?] at hj
  | .cons hd tl, 0, it => by
    intro hj h
    cases hj
    simp only [expNonemptyL, Bool.and_eq_true] at h
    exact h.1
  | .cons hd tl, j + 1, it => by
    intro hj h
    simp only [expNonemptyL, Bool.and_eq_true] at h
    exact expNonempty_of_get? tl j it hj h.2

theorem expNonempty_resolvePath : ∀ (p : List Nat) (l : ItemList V)
    (it : Item V), resolvePath l p = some it → expNonemptyL l = true →
    expNonempty it = true
  | [], l, it => by intro h _; simp [resolvePath] at h
  | [i], l, it => fun h hl => expNonempty_of_get? l i it h hl
  | i :: j :: rest, l, it => by
    intro h hl
    simp only [resolvePath] at h
    match hi : l.get? i with
    | some (.group e d cs) =>
      rw [hi] at h
      have hg := expNonempty_of_get? l i _ hi hl
      simp only [expNonempty, Bool.and_eq_true] at hg
      exact expNonempty_resolvePath (j :: rest) cs it h hg.2
    | some .separator => rw [hi] at h; cases h
    | some (.choice v c d) => rw [hi] at h; cases h
    | none => rw [hi] at h; cases h

mutual
theorem calcPrior_isSome : ∀ it : Item V, expNonempty it = true →
    (calcPrior it).isSome = true
  | .separator => fun _ => rfl
  | .choice _ _ _ => fun _ => rfl
  | .group e d cs => by
    intro h
    simp only [expNonempty, Bool.and_eq_true] at h
    cases e with
    | false => rfl
    | true =>
      obtain ⟨h1, h2⟩ := h
      simp only [Bool.not_true, Bool.false_or, Bool.not_eq_eq_eq_not,
        Bool.not_false] at h1
      cases cs with
      | nil => simp [ItemList.isNil] at h1
      | cons hd tl =>
        simp only [calcPrior]
        exact calcPriorL_isSome hd tl h2
termination_by it => sizeOf it

theorem calcPriorL_isSome : ∀ (hd : Item V) (tl : ItemList V),
    expNonemptyL (ItemList.cons hd tl) = true →
    (calcPriorL (ItemList.cons hd tl)).isSome = true
  | hd, .nil => by
    intro h
    simp only [expNonemptyL, Bool.and_eq_true] at h
    simp only [calcPriorL]
    match hc : calcPrior hd with
    | some r => rfl
    | none =>
      have := calcPrior_isSome hd h.1
      rw [hc] at this
      cases this
  | hd, .cons hd2 tl2 => by
    intro h
    simp only [expNonemptyL, Bool.and_eq_true] at h
    simp only [calcPriorL]
    have := calcPriorL_isSome hd2 tl2 (by simp [expNonemptyL, h.2.1, h.2.2])
    match hc : calcPriorL (ItemList.cons hd2 tl2) with
    | some [] => rfl
    | some (i :: r) => rfl
    | none =>
      rw [hc] at this
      cases this
termination_by hd tl => sizeOf (ItemList.cons hd tl)
end

theorem ItemList.get?_isSome_of_le (l : ItemList V) (j i : Nat) (hji : j ≤ i)
    (h : (l.get? i).isSome = true) : (l.get? j).isSome = true := by
  rw [ItemList.get?_isSome_iff] at *
  omega

theorem valid_resolve_dec : ∀ (p : List Nat) (l : ItemList V) (k : Nat),
    validPathB l p = true → p.getLast? = some (k + 1) →
    (resolvePath l (p.dropLast ++ [k])).isSome = true
  | [], l, k => by intro hv _; simp [validPathB] at hv
  | [i], l, k => by
    intro hv hk
    simp only [List.getLast?_singleton, Option.some.injEq] at hk
    subst hk
    simp only [validPathB] at hv
    simp only [List.dropLast_single, List.nil_append]
    match hi : l.get? (k + 1) with
    | some it =>
      have hsome : (l.get? (k + 1)).isSome = true := by rw [hi]; rfl
      have := ItemList.get?_isSome_of_le l k (k + 1) (by omega) hsome
      simpa [resolvePath] using this
    | none => rw [hi] at hv; cases hv
  | i :: j :: rest, l, k => by
    intro hv hk
    rw [List.getLast?_cons_cons] at hk
    rw [List.dropLast_cons₂]
    simp only [validPathB] at hv
    match hi : l.get? i with
    | some (.group e dd cs) =>
      rw [hi] at hv
      simp only [Bool.and_eq_true] at hv
      have ih := valid_resolve_dec (j :: rest) cs k hv.2 hk
      match hys : (j :: rest).dropLast ++ [k] with
      | [] => simp at hys
      | w :: ws =>
        rw [hys] at ih
        simp only [List.cons_append, hys]
        simpa [resolvePath, hi] using ih
    | some .separator => rw [hi] at hv; cases hv
    | some (.choice v c d) => rw [hi] at hv; cases hv
    | none => rw [hi] at hv; cases hv

/-- C9: for every tree in which every expanded Group has at least one child,
and every valid focus path, the Up key handler returns a focus path without
throwing — the `calcPrior` descent is guarded only by the `expanded` flag, and
non-emptiness of every expanded Group keeps its last-child indexing in
bounds. -/
theorem claim_C9_up_total (boundsLast : Nat) (items : ItemList V) (active : List Nat)
    (hv : validPathB items active = true)
    (hne : expNonemptyL items = true) :
    (upKey boundsLast items active).isSome = true := by
  unfold upKey
  split
  · rfl
  · split
    · rfl
    · rename_i hc1 hc2
      match hl : active.getLast? with
      | none =>
        rw [List.getLast?_eq_none_iff] at hl
        subst hl
        simp [validPathB] at hv
      | some 0 => exact absurd hl hc2
      | some (k + 1) =>
        have hgd : active.getLastD 0 = k + 1 := by
          rw [List.getLastD_eq_getLast?, hl]
          rfl
        rw [hgd]
        simp only [Nat.add_sub_cancel]
        have hres := valid_resolve_dec active items k hv hl
        match hr : resolvePath items (active.dropLast ++ [k]) with
        | none => rw [hr] at hres; cases hres
        | some ptr =>
          have hne2 := expNonempty_resolvePath _ items ptr hr hne
          have hcp := calcPrior_isSome ptr hne2
          match hc : calcPrior ptr with
          | none => rw [hc] at hcp; cases hcp
          | some r => simp only [Option.map, hc, Option.isSome]

theorem ItemList.get?_set_self : ∀ (l : ItemList V) (a : Nat) (y : Item V),
    a < l.length → (l.set a y).get? a = some y
  | .nil, a, y => by intro h; simp [ItemList.length] at h
  | .cons hd tl, 0, y => fun _ => rfl
  | .cons hd tl, a + 1, y => by
    intro h
    simp only [ItemList.length] at h
    exact ItemList.get?_set_self tl a y (by omega)

theorem spaceItem_miss (active : List Nat) (d idx : Nat) (x : Item V)
    (h : ¬active[d]? = some idx) : spaceItem active d idx x = some x := by
  cases x <;> simp [spaceItem, h]

theorem spaceItem_hit_final (active : List Nat) (d a : Nat) (x : Item V)
    (ha : active[d]? = some a) (hd : d = active.length - 1) :
    spaceItem active d a x = some (spaceFinal x) := by
  subst hd
  cases x <;> simp [spaceItem, ha, spaceFinal]

theorem spaceItem_hit_group (active : List Nat) (d a : Nat) (e dd : Bool)
    (cs : ItemList V) (ha : active[d]? = some a)
    (hd : ¬d = active.length - 1) :
    spaceItem active d a (.group e dd cs)
      = (spaceList active (d + 1) 0 cs).map (.group e dd ·) := by
  simp [spaceItem, ha, hd]

theorem spaceList_miss (active : List Nat) (d : Nat) :
    ∀ (l : ItemList V) (i a : Nat), active[d]? = some a → a < i →
    spaceList active d i l = some l
  | .nil, i, a => fun _ _ => rfl
  | .cons hd tl, i, a => by
    intro ha hlt
    have h1 : spaceItem active d i hd = some hd :=
      spaceItem_miss _ _ _ _ (by rw [ha]; simp; omega)
    have h2 := spaceList_miss active d tl (i + 1) a ha (by omega)
    simp [spaceList, h1, h2]

theorem spaceList_hit (active : List Nat) (d : Nat) :
    ∀ (l : ItemList V) (a i : Nat) (x y : Item V),
    l.get? a = some x → active[d]? = some (i + a) →
    spaceItem active d (i + a) x = some y →
    spaceList active d i l = some (l.set a y)
  | .nil, a, i, x, y => by intro h _ _; simp [ItemList.get?] at h
  | .cons hd tl, 0, i, x, y => by
    intro hget ha hitem
    simp only [ItemList.get?, Option.some.injEq] at hget
    subst hget
    rw [Nat.add_zero] at ha hitem
    have htl : spaceList active d (i + 1) tl = some tl :=
      spaceList_miss active d tl (i + 1) i ha (by omega)
    simp [spaceList, hitem, htl, ItemList.set]
  | .cons hd tl, a + 1, i, x, y => by
    intro hget ha hitem
    simp only [ItemList.get?] at hget
    have hmiss : spaceItem active d i hd = some hd :=
      spaceItem_miss _ _ _ _ (by rw [ha]; simp)
    have ha2 : active[d]? = some ((i + 1) + a) := by rw [ha]; congr 1; omega
    have hitem2 : spaceItem active d ((i + 1) + a) x = some y := by
      rw [show (i + 1) + a = i + (a + 1) from by omega]
      exact hitem
    have ih := spaceList_hit active d tl a (i + 1) x y hget ha2 hitem2
    simp [spaceList, hmiss, ih, ItemList.set]

theorem spaceList_resolve (active : List Nat) :
    ∀ (suffix : List Nat) (d : Nat) (l : ItemList V) (it : Item V),
    active.drop d = suffix → resolvePath l suffix = some it →
    ∃ l2, spaceList active d 0 l = some l2 ∧
      resolvePath l2 suffix = some (spaceFinal it)
  | [], d, l, it => by intro _ h; simp [resolvePath] at h
  | [a], d, l, it => by
    intro hdrop hres
    simp only [resolvePath] at hres
    have ha : active[d]? = some a := by
      have := List.getElem?_drop active d 0
      rw [hdrop] at this
      simpa using this.symm
    have hdlen : d = active.length - 1 := by
      have := congrArg List.length hdrop
      rw [List.length_drop] at this
      simp at this
      omega
    have halt : a < l.length := by
      have : (l.get? a).isSome = true := by rw [hres]; rfl
      rwa [ItemList.get?_isSome_iff] at this
    refine ⟨l.set a (spaceFinal it), ?_, ?_⟩
    · have hhit := spaceItem_hit_final active d a it ha hdlen
      have := spaceList_hit active d l a 0 it (spaceFinal it)
        hres (by rw [ha]; congr 1; omega)
        (by rw [show 0 + a = a from by omega]; exact hhit)
      exact this
    · simp only [resolvePath]
      exact ItemList.get?_set_self l a (spaceFinal it) halt
  | a :: w :: ws, d, l, it => by
    intro hdrop hres
    have ha : active[d]? = some a := by
      have := List.getElem?_drop active d 0
      rw [hdrop] at this
      simpa using this.symm
    have hdrop2 : active.drop (d + 1) = w :: ws := by
      rw [← List.tail_drop, hdrop]
      rfl
    have hdne : ¬d = active.length - 1 := by
      have := congrArg List.length hdrop
      rw [List.length_drop] at this
      simp at this
      omega
    simp only [resolvePath] at hres
    match hi : l.get? a with
    | some (.group e dd cs) =>
      rw [hi] at hres
      obtain ⟨cs2, hcs2, hres2⟩ :=
        spaceList_resolve active (w :: ws) (d + 1) cs it hdrop2 hres
      have halt : a < l.length := by
        have : (l.get? a).isSome = true := by rw [hi]; rfl
        rwa [ItemList.get?_isSome_iff] at this
      have hitem : spaceItem active d a (.group e dd cs)
          = some (.group e dd cs2) := by
        rw [spaceItem_hit_group active d a e dd cs ha hdne, hcs2]
        rfl
      refine ⟨l.set a (.group e dd cs2), ?_, ?_⟩
      · have := spaceList_hit active d l a 0 (.group e dd cs)
          (.group e dd cs2) hi (by rw [ha]; congr 1; omega)
          (by rw [show 0 + a = a from by omega]; exact hitem)
        exact this
      · simp only [resolvePath]
        rw [ItemList.get?_set_self l a (.group e dd cs2) halt]
        exact hres2
    | some .separator => rw [hi] at hres; cases hres
    | some (.choice v c dd) => rw [hi] at hres; cases hres
    | none => rw [hi] at hres; cases hres

/- ———————————————————————— claim theorems ———————————————————————— -/

/-- C1 (amended): on Enter with `required` set and no Choice anywhere checked,
the prompt records the error "At least one choice must be selected" and the
status stays pending — but the supplied `validate` predicate IS called (once,
with the empty flattened selection), its result being discarded. -/
theorem claim_C1_enter_required (validate : List (Item V) → VRes)
    (items : ItemList V) (h : noRawCheckedL items = true) :
    (enterKey true validate items).errorSet
      = some "At least one choice must be selected" ∧
    (enterKey true validate items).statusDone = false ∧
    (enterKey true validate items).validateCalls = [[]] := by
  have hany := anyCheckedL_eq_false_of_noRawCheckedL items h
  have hget := getCheckedL_eq_nil_of_noRawCheckedL items h
  simp [enterKey, hany, hget]

/-- Witness for C1: a concrete unchecked single-choice tree. -/
theorem claim_C1_enter_required_witness :
    noRawCheckedL (ItemList.cons (Item.choice (3 : Nat) false false) .nil)
      = true ∧
    ((enterKey true (fun _ => VRes.str "nope")
        (ItemList.cons (Item.choice (3 : Nat) false false) .nil)).errorSet
      = some "At least one choice must be selected" ∧
     (enterKey true (fun _ => VRes.str "nope")
        (ItemList.cons (Item.choice (3 : Nat) false false) .nil)).statusDone
      = false ∧
     (enterKey true (fun _ => VRes.str "nope")
        (ItemList.cons (Item.choice (3 : Nat) false false) .nil)).validateCalls
      = [[]]) :=
  ⟨by decide, claim_C1_enter_required _ _ (by decide)⟩

/-- C1 counterexample: with `required = true` and nothing checked, the error
and pending status are as claimed, but `validateCalls` is nonempty — `validate`
was invoked, contradicting the claim's "the supplied validate predicate is not
called". -/
theorem claim_C1_counterexample :
    (enterKey true (fun _ => VRes.bool true)
        (ItemList.cons (Item.choice (0 : Nat) false false) .nil)).errorSet
      = some "At least one choice must be selected" ∧
    (enterKey true (fun _ => VRes.bool true)
        (ItemList.cons (Item.choice (0 : Nat) false false) .nil)).statusDone
      = false ∧
    ¬(enterKey true (fun _ => VRes.bool true)
        (ItemList.cons (Item.choice (0 : Nat) false false) .nil)).validateCalls
      = [] := by
  decide

/-- C2 (amended): `getChecked` flattens, in depth-first pre-order tree order,
exactly the Choices whose raw `checked` field is true — a disabled checked
Choice is included — and on a successful confirmation the result is the
`value` fields of exactly those Choices in that order. -/
theorem claim_C2_flatten_checked (items : ItemList V)
    (validate : List (Item V) → VRes) (required : Bool) :
    getCheckedL items = (allChoicesL items).filter rawChecked ∧
    ((enterKey required validate items).statusDone = true →
      (enterKey required validate items).doneValue
        = some (choiceVals (getCheckedL items))) := by
  refine ⟨getCheckedL_eq_filter items, ?_⟩
  intro hdone
  cases hcond : (required && !anyCheckedL items) with
  | true => simp [enterKey, hcond] at hdone
  | false =>
    cases hval : validate (getCheckedL items) with
    | bool b =>
      cases b
      · simp [enterKey, hcond, hval] at hdone
      · simp [enterKey, hcond, hval]
    | str s2 => simp [enterKey, hcond, hval] at hdone

/-- Witness for C2: a concrete confirmed selection. -/
theorem claim_C2_flatten_checked_witness :
    (enterKey false (fun _ => VRes.bool true)
        (ItemList.cons (Item.choice (1 : Nat) true false) .nil)).statusDone
      = true ∧
    (enterKey false (fun _ => VRes.bool true)
        (ItemList.cons (Item.choice (1 : Nat) true false) .nil)).doneValue
      = some (choiceVals (getCheckedL
          (ItemList.cons (Item.choice (1 : Nat) true false) .nil))) :=
  ⟨by decide,
    (claim_C2_flatten_checked (ItemList.cons (Item.choice (1 : Nat) true false)
      .nil) (fun _ => VRes.bool true) false).2 (by decide)⟩

/-- C2 counterexample: a disabled, checked Choice is yielded by the source's
flatten, while the spec-worded flatten ("checked, non-disabled") omits it. -/
theorem claim_C2_counterexample :
    getCheckedL (ItemList.cons (Item.choice (5 : Nat) true true) .nil)
      = [Item.choice 5 true true] ∧
    flattenCheckedSpec (ItemList.cons (Item.choice (5 : Nat) true true) .nil)
      = [] ∧
    ¬getCheckedL (ItemList.cons (Item.choice (5 : Nat) true true) .nil)
      = flattenCheckedSpec
          (ItemList.cons (Item.choice (5 : Nat) true true) .nil) := by
  decide

/-- C3 (amended): pressing `'a'` sets every selectable Choice's `checked` to
`!items.every(allChecked)` — a computation in which Separators and disabled
Choices never count as checked — and touches nothing else.  In a tree with no
Separators and no disabled Choices, starting from a not-all-checked state, one
press makes `flattenChecked` return exactly all Choices (by value, in order)
and a second press returns the empty sequence. -/
theorem claim_C3_select_all (items : ItemList V) :
    selChoicesAreL (!allCheckedL items) (aKeyItems items) = true ∧
    eraseSelCheckedL (aKeyItems items) = eraseSelCheckedL items ∧
    (noBlockersL items = true → allCheckedL items = false →
      choiceVals (getCheckedL (aKeyItems items))
        = choiceVals (allChoicesL items) ∧
      getCheckedL (aKeyItems (aKeyItems items)) = []) := by
  refine ⟨selChoicesAreL_mapItemStaticL _ items,
    eraseSelCheckedL_mapItemStaticL _ items, ?_⟩
  intro hnb hnall
  have h1 : aKeyItems items = mapItemStaticL true items := by
    unfold aKeyItems
    rw [hnall]
    rfl
  constructor
  · rw [h1]
    exact choiceValsL_getCheckedL_mapItemStaticL_true items hnb
  · rw [h1]
    have hall2 : allCheckedL (mapItemStaticL true items) = true :=
      allCheckedL_mapItemStaticL_true items hnb
    have hnb2 : noBlockersL (mapItemStaticL true items) = true := by
      rw [noBlockersL_mapItemStaticL]
      exact hnb
    unfold aKeyItems
    rw [hall2]
    exact getCheckedL_mapItemStaticL_false _ hnb2

/-- Witness for C3: a concrete blocker-free tree. -/
theorem claim_C3_select_all_witness :
    noBlockersL (ItemList.cons (Item.choice (1 : Nat) false false)
        (ItemList.cons (Item.choice 2 true false) .nil)) = true ∧
    allCheckedL (ItemList.cons (Item.choice (1 : Nat) false false)
        (ItemList.cons (Item.choice 2 true false) .nil)) = false ∧
    (choiceVals (getCheckedL (aKeyItems
        (ItemList.cons (Item.choice (1 : Nat) false false)
          (ItemList.cons (Item.choice 2 true false) .nil))))
      = choiceVals (allChoicesL
        (ItemList.cons (Item.choice (1 : Nat) false false)
          (ItemList.cons (Item.choice 2 true false) .nil))) ∧
     getCheckedL (aKeyItems (aKeyItems
        (ItemList.cons (Item.choice (1 : Nat) false false)
          (ItemList.cons (Item.choice 2 true false) .nil)))) = []) :=
  ⟨by decide, by decide,
    (claim_C3_select_all (ItemList.cons (Item.choice (1 : Nat) false false)
      (ItemList.cons (Item.choice 2 true false) .nil))).2.2
      (by decide) (by decide)⟩

/-- C3 counterexample: in `[Choice(unchecked), Separator]`, after one `'a'`
press every selectable item is checked, yet a second press re-checks instead
of unchecking — `flattenChecked` is not the empty sequence. -/
theorem claim_C3_counterexample :
    selChoicesAreL true (aKeyItems (ItemList.cons
        (Item.choice (1 : Nat) false false)
        (ItemList.cons .separator .nil))) = true ∧
    getCheckedL (aKeyItems (aKeyItems (ItemList.cons
        (Item.choice (1 : Nat) false false)
        (ItemList.cons .separator .nil)))) = [Item.choice 1 true false] ∧
    ¬getCheckedL (aKeyItems (aKeyItems (ItemList.cons
        (Item.choice (1 : Nat) false false)
        (ItemList.cons .separator .nil)))) = [] := by
  decide

/-- C4 (amended): pressing Space on a focused Group sets every selectable
descendant Choice's `checked` to `!allChecked(group)` and leaves the Group's
`expanded` (and `disabled`) flags untouched; consequently aggregate `all`
becomes `none` whenever the group has at least one Choice or Separator
descendant, and aggregate `partial`/`none` becomes `all` whenever every
descendant is a selectable Choice (no Separator or disabled-Choice
descendants). -/
theorem claim_C4_space_on_group (items : ItemList V) (active : List Nat)
    (e dd : Bool) (cs : ItemList V)
    (h : resolvePath items active = some (.group e dd cs)) :
    ∃ items2, spaceKey items active = some items2 ∧
      resolvePath items2 active
        = some (.group e dd (mapItemStaticL (!allCheckedL cs) cs)) ∧
      (aggregateG cs = .all → hasLeafL cs = true →
        aggregateG (mapItemStaticL (!allCheckedL cs) cs) = .nochk) ∧
      (¬aggregateG cs = .all → noBlockersL cs = true →
        aggregateG (mapItemStaticL (!allCheckedL cs) cs) = .all) := by
  obtain ⟨l2, hl2, hres⟩ :=
    spaceList_resolve active active 0 items (.group e dd cs) rfl h
  refine ⟨l2, hl2, ?_, ?_, ?_⟩
  · simpa [spaceFinal] using hres
  · intro hall hleaf
    rw [aggregateG_all_iff] at hall
    simp only [hall, Bool.not_true]
    exact aggregateG_mapItemStaticL_false cs hleaf
  · intro hnall hnb
    have hfalse : allCheckedL cs = false := by
      rw [aggregateG_all_iff] at hnall
      simpa using hnall
    simp only [hfalse, Bool.not_false]
    exact aggregateG_mapItemStaticL_true cs hnb

/-- Witness for C4: a concrete expanded group focused at path `[0]`. -/
theorem claim_C4_space_on_group_witness :
    ∃ items2,
      spaceKey (ItemList.cons (Item.group true false
        (ItemList.cons (Item.choice (5 : Nat) false false) .nil)) .nil) [0]
        = some items2 ∧
      resolvePath items2 [0]
        = some (.group true false (mapItemStaticL
            (!allCheckedL (ItemList.cons (Item.choice (5 : Nat) false false)
              .nil))
            (ItemList.cons (Item.choice (5 : Nat) false false) .nil))) ∧
      (aggregateG (ItemList.cons (Item.choice (5 : Nat) false false) .nil)
          = .all →
        hasLeafL (ItemList.cons (Item.choice (5 : Nat) false false) .nil)
          = true →
        aggregateG (mapItemStaticL
          (!allCheckedL (ItemList.cons (Item.choice (5 : Nat) false false)
            .nil))
          (ItemList.cons (Item.choice (5 : Nat) false false) .nil)) = .nochk) ∧
      (¬aggregateG (ItemList.cons (Item.choice (5 : Nat) false false) .nil)
          = .all →
        noBlockersL (ItemList.cons (Item.choice (5 : Nat) false false) .nil)
          = true →
        aggregateG (mapItemStaticL
          (!allCheckedL (ItemList.cons (Item.choice (5 : Nat) false false)
            .nil))
          (ItemList.cons (Item.choice (5 : Nat) false false) .nil)) = .all) :=
  claim_C4_space_on_group
    (ItemList.cons (Item.group true false
      (ItemList.cons (Item.choice (5 : Nat) false false) .nil)) .nil)
    [0] true false (ItemList.cons (Item.choice (5 : Nat) false false) .nil)
    (by decide)

/-- C4 counterexample: Space on a Group with aggregate `none` containing a
disabled child checks only the selectable child; the aggregate becomes
`partial`, not `all` as the claim states. -/
theorem claim_C4_counterexample :
    aggregateG (ItemList.cons (Item.choice (1 : Nat) false false)
        (ItemList.cons (Item.choice 2 false true) .nil)) = Agg.nochk ∧
    spaceKey (ItemList.cons (Item.group false false
        (ItemList.cons (Item.choice (1 : Nat) false false)
          (ItemList.cons (Item.choice 2 false true) .nil))) .nil) [0]
      = some (ItemList.cons (Item.group false false
          (ItemList.cons (Item.choice 1 true false)
            (ItemList.cons (Item.choice 2 false true) .nil))) .nil) ∧
    aggregateG (ItemList.cons (Item.choice (1 : Nat) true false)
        (ItemList.cons (Item.choice 2 false true) .nil)) = Agg.part ∧
    ¬Agg.part = Agg.all := by
  decide

/-- C5 (amended): the Down branch consults neither `loop` nor `bounds`; at
depth 1, on any focused item that is not an expanded nonempty Group —
including the last selectable root-level item — it unconditionally advances
the root index by one, moving the focus past the end of the list. -/
theorem claim_C5_down_no_bound (items : ItemList V) (i : Nat) (it : Item V)
    (h : items.get? i = some it) (h2 : isExpandedNonemptyGroup it = false) :
    downKey items [i] = some [i + 1] := by
  simp [downKey, hierarchy, h, h2]

/-- Witness for C5: a two-choice tree focused on its second item. -/
theorem claim_C5_down_no_bound_witness :
    downKey (ItemList.cons (Item.choice (1 : Nat) false false)
        (ItemList.cons (Item.choice 2 false false) .nil)) [1]
      = some [2] :=
  claim_C5_down_no_bound
    (ItemList.cons (Item.choice (1 : Nat) false false)
      (ItemList.cons (Item.choice 2 false false) .nil))
    1 (Item.choice 2 false false) (by decide) (by decide)

/-- C5 counterexample: with the focus on the last selectable root item (index
1 of 2), Down yields focus path `[2]`, i.e. it advances past that item (the
handler takes no `loop` argument at all). -/
theorem claim_C5_counterexample :
    findLastSelectable (ItemList.cons (Item.choice (1 : Nat) false false)
        (ItemList.cons (Item.choice 2 false false) .nil)) = some 1 ∧
    downKey (ItemList.cons (Item.choice (1 : Nat) false false)
        (ItemList.cons (Item.choice 2 false false) .nil)) [1]
      = some [2] ∧
    ¬downKey (ItemList.cons (Item.choice (1 : Nat) false false)
        (ItemList.cons (Item.choice 2 false false) .nil)) [1]
      = some [1] := by
  decide

/-- C6 (amended): pressing `'i'` flips the `checked` field of every Choice in
the tree — disabled Choices included — and changes nothing else (Separators,
group structure, `expanded` and `disabled` flags untouched). -/
theorem claim_C6_invert (items : ItemList V) :
    eraseCheckedL (invertKey items) = eraseCheckedL items ∧
    (allChoicesL (invertKey items)).map rawChecked
      = ((allChoicesL items).map rawChecked).map (fun b => !b) :=
  ⟨eraseCheckedL_toggleL items, rawChecked_allChoicesL_toggleL items⟩

/-- C6 counterexample: a disabled (non-selectable) Choice has its `checked`
flipped by Invert, contradicting "disabled Choices are left unchanged". -/
theorem claim_C6_counterexample :
    isSelectable (Item.choice (0 : Nat) false true) = false ∧
    invertKey (ItemList.cons (Item.choice (0 : Nat) false true) .nil)
      = ItemList.cons (Item.choice 0 true true) .nil ∧
    ¬invertKey (ItemList.cons (Item.choice (0 : Nat) false true) .nil)
      = ItemList.cons (Item.choice 0 false true) .nil := by
  decide

/-- C7: pressing Left never changes any Choice's `checked` value (nor any
`value` or `disabled` field, nor the tree shape): the result agrees with the
input after erasing `expanded` flags; the focus path is either popped by one
level or left unchanged. -/
theorem claim_C7_left_frame (items : ItemList V) (active : List Nat) :
    eraseExpandedL (leftKeyItems active items) = eraseExpandedL items ∧
    (leftKeyActive active = active.dropLast ∨ leftKeyActive active = active) := by
  refine ⟨eraseExpandedL_leftList active 0 false 0 items, ?_⟩
  unfold leftKeyActive
  split
  · exact Or.inl rfl
  · exact Or.inr rfl

/-- C8: the bounds computation fails (the `ValidationError` that aborts prompt
startup, the spec's `NoSelectableChoicesError`) iff no root-level item is
selectable; otherwise it returns exactly the first and last selectable
root-level indices. -/
theorem claim_C8_bounds (items : ItemList V) :
    (computeBounds items = none ↔
      ∀ j it, items.get? j = some it → isSelectable it = false) ∧
    ∀ f l, computeBounds items = some (f, l) →
      ((∃ it, items.get? f = some it ∧ isSelectable it = true) ∧
       (∀ j it, items.get? j = some it → j < f → isSelectable it = false) ∧
       (∃ it, items.get? l = some it ∧ isSelectable it = true) ∧
       (∀ j it, items.get? j = some it → l < j → isSelectable it = false)) := by
  constructor
  · constructor
    · intro h
      unfold computeBounds at h
      match hf : findFirstSelectable items, hl : findLastSelectable items with
      | some f, some l => rw [hf, hl] at h; cases h
      | none, _ => exact (findFirstSelectable_eq_none_iff items).mp hf
      | some f, none => exact (findLastSelectable_eq_none_iff items).mp hl
    · intro hall
      have hf := (findFirstSelectable_eq_none_iff items).mpr hall
      have hl := findLastSelectable_eq_none_of_first items hf
      unfold computeBounds
      rw [hf, hl]
  · intro f l h
    unfold computeBounds at h
    match hf : findFirstSelectable items, hl : findLastSelectable items with
    | some f0, some l0 =>
      rw [hf, hl] at h
      simp only [Option.some.injEq, Prod.mk.injEq] at h
      obtain ⟨rfl, rfl⟩ := h
      obtain ⟨hef, hminf⟩ := findFirstSelectable_spec items f0 hf
      obtain ⟨hel, hmaxl⟩ := findLastSelectable_spec items l0 hl
      exact ⟨hef, hminf, hel, hmaxl⟩
    | none, _ => rw [hf] at h; cases h
    | some f0, none => rw [hf, hl] at h; cases h

/-- Witness for C8: a tree whose selectable items sit at indices 1 and 2. -/
theorem claim_C8_bounds_witness :
    computeBounds (ItemList.cons Item.separator
        (ItemList.cons (Item.choice (1 : Nat) false false)
          (ItemList.cons (Item.choice 2 false false) .nil))) = some (1, 2) ∧
    ((∃ it, (ItemList.cons Item.separator
        (ItemList.cons (Item.choice (1 : Nat) false false)
          (ItemList.cons (Item.choice 2 false false) .nil))).get? 1 = some it ∧
        isSelectable it = true) ∧
     (∀ j it, (ItemList.cons Item.separator
        (ItemList.cons (Item.choice (1 : Nat) false false)
          (ItemList.cons (Item.choice 2 false false) .nil))).get? j = some it →
        j < 1 → isSelectable it = false) ∧
     (∃ it, (ItemList.cons Item.separator
        (ItemList.cons (Item.choice (1 : Nat) false false)
          (ItemList.cons (Item.choice 2 false false) .nil))).get? 2 = some it ∧
        isSelectable it = true) ∧
     (∀ j it, (ItemList.cons Item.separator
        (ItemList.cons (Item.choice (1 : Nat) false false)
          (ItemList.cons (Item.choice 2 false false) .nil))).get? j = some it →
        2 < j → isSelectable it = false)) :=
  ⟨by decide,
    (claim_C8_bounds (ItemList.cons Item.separator
      (ItemList.cons (Item.choice (1 : Nat) false false)
        (ItemList.cons (Item.choice 2 false false) .nil)))).2 1 2 (by decide)⟩

/-- Witness for C9: a valid depth-2 focus path in a tree whose only expanded
group is nonempty. -/
theorem claim_C9_up_total_witness :
    validPathB (ItemList.cons (Item.group true false
        (ItemList.cons (Item.choice (1 : Nat) false false)
          (ItemList.cons (Item.choice 2 false false) .nil))) .nil) [0, 1]
      = true ∧
    expNonemptyL (ItemList.cons (Item.group true false
        (ItemList.cons (Item.choice (1 : Nat) false false)
          (ItemList.cons (Item.choice 2 false false) .nil))) .nil) = true ∧
    (upKey 5 (ItemList.cons (Item.group true false
        (ItemList.cons (Item.choice (1 : Nat) false false)
          (ItemList.cons (Item.choice 2 false false) .nil))) .nil)
        [0, 1]).isSome = true :=
  ⟨by decide, by decide,
    claim_C9_up_total 5
      (ItemList.cons (Item.group true false
        (ItemList.cons (Item.choice (1 : Nat) false false)
          (ItemList.cons (Item.choice 2 false false) .nil))) .nil)
      [0, 1] (by decide) (by decide)⟩

/-- C10: at prompt construction the focus path is exactly `[bounds.first]`,
the index of the first selectable root-level item, which is neither a
Separator nor disabled. -/
theorem claim_C10_initial_focus (items : ItemList V) (f l : Nat)
    (h : computeBounds items = some (f, l)) :
    initialActive items = some [f] ∧
    ∃ it, items.get? f = some it ∧ isSelectable it = true ∧
      isSep it = false := by
  refine ⟨?_, ?_⟩
  · unfold initialActive
    rw [h]
    rfl
  · unfold computeBounds at h
    match hf : findFirstSelectable items, hl : findLastSelectable items with
    | some f0, some l0 =>
      rw [hf, hl] at h
      simp only [Option.some.injEq, Prod.mk.injEq] at h
      obtain ⟨rfl, rfl⟩ := h
      obtain ⟨⟨it, hit, hsel⟩, _⟩ := findFirstSelectable_spec items f0 hf
      refine ⟨it, hit, hsel, ?_⟩
      cases it with
      | separator => simp [isSelectable] at hsel
      | choice v c d => rfl
      | group e d cs => rfl
    | none, _ => rw [hf] at h; cases h
    | some f0, none => rw [hf, hl] at h; cases h

/-- Witness for C10: a tree starting with a separator and a disabled choice. -/
theorem claim_C10_initial_focus_witness :
    initialActive (ItemList.cons Item.separator
        (ItemList.cons (Item.choice (7 : Nat) false true)
          (ItemList.cons (Item.choice 9 false false) .nil))) = some [2] ∧
    ∃ it, (ItemList.cons Item.separator
        (ItemList.cons (Item.choice (7 : Nat) false true)
          (ItemList.cons (Item.choice 9 false false) .nil))).get? 2 = some it ∧
      isSelectable it = true ∧ isSep it = false :=
  claim_C10_initial_focus
    (ItemList.cons Item.separator
      (ItemList.cons (Item.choice (7 : Nat) false true)
        (ItemList.cons (Item.choice 9 false false) .nil)))
    2 2 (by decide)
